import Mathlib

/- Shallow embedding of the wordie SRS scheduling engine
   (src/wordie_srs/src/srs/wordie.rs).

   Conventions of the embedding:
   * times are naive-UTC timestamps in whole seconds (Nat);
   * durations are whole seconds (Nat), matching the source, which stores
     intervals as std::time::Duration and multiplies them on whole seconds;
   * the f32/f64 ease arithmetic of the source is embedded as exact rational
     arithmetic (the concrete constants 2.5, 1.3, 1.2, 0.2, 0.15 are exactly
     representable in binary floating point or behave identically on the
     values the claims exercise);
   * fallible operations (chrono::Duration::from_std, Option::unwrap on a
     graduated card without an interval) return Option;
   * the MySQL tables are embedded as in-memory lists, and each SQL query is
     rendered as deterministic list processing: joins iterate in link order,
     ORDER BY is a stable insertion sort, ORDER BY ... LIMIT 1 picks the
     first extremal element, GROUP BY groups keys in first-occurrence order. -/

/-- The initial intervals for new cards: 1 minute, 10 minutes, 24 hours,
given in seconds. -/
def INITIAL_INTERVALS : List Nat := [60, 600, 86400]

/-- The default ease. -/
def DEFAULT_EASE : ℚ := 5/2

/-- The minimum ease. -/
def MINIMUM_EASE : ℚ := 13/10

/-- The easy bonus. -/
def EASY_BONUS : ℚ := 13/10

/-- The hard interval multiplier. -/
def HARD_INTERVAL : ℚ := 12/10

/-- The max number of cards in learning state at once. -/
def MAX_LEARNING_CARDS : Int := 10

/-- Review difficulties. -/
inductive Difficulty
  | again
  | hard
  | good
  | easy
deriving DecidableEq, Repr

/-- A card: the review state attached to one word (table `cards`). -/
structure Card where
  word_id : Nat
  due : Option Nat
  interval : Option Nat
  review_count : Int
  ease : ℚ
  added_order : Nat
deriving DecidableEq, Repr

/-- i32::clamp. -/
def clampI (x lo hi : Int) : Int := min (max x lo) hi

/-- Card::mul_duration: multiply a whole-seconds duration by a rational
multiplier, truncating the fractional part; the f64-to-u64 cast of the
source also saturates at u64::MAX. -/
def mulDuration (d : Nat) (m : ℚ) : Nat :=
  min (Int.toNat ⌊(d : ℚ) * m⌋) (2 ^ 64 - 1)

/-- chrono::Duration::from_std on a whole-seconds duration: fails when the
duration exceeds i64::MAX milliseconds. -/
def fromStd (n : Nat) : Option Nat :=
  if n ≤ 9223372036854775 then some n else none

/-- Card::review, the review state machine of the source: learning regime
while review_count is below the number of initial intervals, graduated
regime afterwards. -/
def Card.review (c : Card) (now : Nat) (score : Difficulty) : Option Card :=
  if c.review_count < (INITIAL_INTERVALS.length : Int) then
    let rc : Int :=
      match score with
      | .again => 0
      | .hard => c.review_count
      | .good => c.review_count + 1
      | .easy => (INITIAL_INTERVALS.length : Int)
    let idx := clampI rc 0 ((INITIAL_INTERVALS.length : Int) - 1)
    let newInterval := INITIAL_INTERVALS.getD idx.toNat 0
    match fromStd newInterval with
    | none => none
    | some d =>
      some { c with review_count := rc, interval := some newInterval,
                    due := some (now + d) }
  else
    match c.interval with
    | none => none
    | some iv =>
      let t : Nat × ℚ × Int :=
        match score with
        | .again => (INITIAL_INTERVALS.getD 0 0, c.ease - 2/10, 0)
        | .hard => (mulDuration iv HARD_INTERVAL, c.ease - 15/100,
                    c.review_count + 1)
        | .good => (mulDuration iv c.ease, c.ease, c.review_count + 1)
        | .easy => (mulDuration iv (c.ease * EASY_BONUS), c.ease + 15/100,
                    c.review_count + 1)
      match fromStd t.1 with
      | none => none
      | some d =>
        some { c with interval := some t.1, due := some (now + d),
                      ease := max MINIMUM_EASE t.2.1, review_count := t.2.2 }

/-- The review step exactly as the specification words it (two regimes
selected by reviewCount < 3, learning transitions, graduated multiplier
rules, ease floored at 1.3 after the adjustment), as a total function: a
graduated card is assumed to carry an interval. -/
def advanceSpec (c : Card) (now : Nat) (score : Difficulty) : Card :=
  if c.review_count < 3 then
    let rc : Int :=
      match score with
      | .again => 0
      | .hard => c.review_count
      | .good => c.review_count + 1
      | .easy => 3
    let iv := INITIAL_INTERVALS.getD (clampI rc 0 2).toNat 0
    { c with review_count := rc, interval := some iv, due := some (now + iv) }
  else
    match score with
    | .again =>
      { c with interval := some (INITIAL_INTERVALS.getD 0 0),
               due := some (now + INITIAL_INTERVALS.getD 0 0),
               ease := max MINIMUM_EASE (c.ease - 2/10), review_count := 0 }
    | .hard =>
      let iv := mulDuration (c.interval.getD 0) HARD_INTERVAL
      { c with interval := some iv, due := some (now + iv),
               ease := max MINIMUM_EASE (c.ease - 15/100),
               review_count := c.review_count + 1 }
    | .good =>
      let iv := mulDuration (c.interval.getD 0) c.ease
      { c with interval := some iv, due := some (now + iv),
               ease := max MINIMUM_EASE c.ease,
               review_count := c.review_count + 1 }
    | .easy =>
      let iv := mulDuration (c.interval.getD 0) (c.ease * EASY_BONUS)
      { c with interval := some iv, due := some (now + iv),
               ease := max MINIMUM_EASE (c.ease + 15/100),
               review_count := c.review_count + 1 }

/-- The card that ingestion (WordieSrsAlgorithm::add_sentences) seeds for a
new word: review_count 0, default ease, NULL interval and due. -/
def seedCard (wid ao : Nat) : Card :=
  { word_id := wid, due := none, interval := none, review_count := 0,
    ease := DEFAULT_EASE, added_order := ao }

/-- Run a sequence of (time, difficulty) reviews on a card; a failing review
leaves the card unchanged and stops the sequence (the source propagates the
error). -/
def Card.applyReviews : Card → List (Nat × Difficulty) → Card
  | c, [] => c
  | c, (t, d) :: rest =>
    match c.review t d with
    | some c2 => c2.applyReviews rest
    | none => c

theorem fromStd_eq_some {n m : Nat} (h : fromStd n = some m) : m = n := by
  unfold fromStd at h
  split at h <;> simp_all

/-- Claim C1: for every card on which Card::review succeeds, the state it
returns is exactly the state given by the specification's two-regime
definition of advance (learning transitions with the clamped initial
interval, graduated interval multiplications on whole seconds with the
fraction truncated, due = now + interval, ease floored at 1.3). -/
theorem c1_review_refines_spec (c : Card) (now : Nat) (score : Difficulty)
    (c' : Card) (h : c.review now score = some c') :
    c' = advanceSpec c now score := by
  unfold Card.review at h
  have hlen : (INITIAL_INTERVALS.length : Int) = 3 := by rfl
  have h21 : (3 : Int) - 1 = 2 := by norm_num
  rw [hlen, h21] at h
  unfold advanceSpec
  split at h
  next hrc =>
    rw [if_pos hrc]
    dsimp only at h ⊢
    split at h
    next => exact Option.noConfusion h
    next d heq =>
      have hd := fromStd_eq_some heq
      subst hd
      simp only [Option.some.injEq] at h
      rw [← h]
  next hrc =>
    rw [if_neg hrc]
    split at h
    next hiv => exact Option.noConfusion h
    next iv hiv =>
      rcases score
      all_goals dsimp only at h ⊢
      all_goals split at h
      all_goals try exact Option.noConfusion h
      all_goals rename_i d heq
      all_goals have hd := fromStd_eq_some heq
      all_goals subst hd
      all_goals simp only [Option.some.injEq] at h
      all_goals rw [← h]
      all_goals try rw [hiv]
      all_goals try rfl

/-- Scenario B card of the specification: reviewCount 5, ease 2.5, interval
86400 seconds. -/
def cardB : Card :=
  { word_id := 0, due := some 0, interval := some 86400, review_count := 5,
    ease := 5/2, added_order := 0 }

theorem c1_witness :
    Card.review cardB 0 Difficulty.hard = some (advanceSpec cardB 0 Difficulty.hard) ∧
    (advanceSpec cardB 0 Difficulty.hard).interval = some 103680 ∧
    (advanceSpec cardB 0 Difficulty.hard).ease = 47/20 ∧
    (advanceSpec cardB 0 Difficulty.hard).review_count = 6 := by
  have h : Card.review cardB 0 Difficulty.hard = some
      { word_id := 0, due := some 103680, interval := some 103680,
        review_count := 6, ease := 47/20, added_order := 0 } := by
    have hm : mulDuration 86400 HARD_INTERVAL = 103680 := by
      unfold mulDuration HARD_INTERVAL
      norm_num
      decide
    unfold Card.review cardB
    rw [if_neg (by norm_num [INITIAL_INTERVALS])]
    dsimp only
    rw [hm]
    norm_num [fromStd, MINIMUM_EASE]
  have h2 := c1_review_refines_spec cardB 0 Difficulty.hard _ h
  refine ⟨h2 ▸ h, ?_, ?_, ?_⟩ <;> rw [← h2]

theorem review_ease_ge (c : Card) (now : Nat) (score : Difficulty) (c2 : Card)
    (hc : MINIMUM_EASE ≤ c.ease) (h : c.review now score = some c2) :
    MINIMUM_EASE ≤ c2.ease := by
  unfold Card.review at h
  split at h
  · dsimp only at h
    split at h
    · exact Option.noConfusion h
    · simp only [Option.some.injEq] at h
      rw [← h]
      exact hc
  · split at h
    · exact Option.noConfusion h
    · dsimp only at h
      split at h
      · exact Option.noConfusion h
      · simp only [Option.some.injEq] at h
        rw [← h]
        exact le_max_left _ _

/-- Claim C5: every card reachable from the ingestion seed (ease 2.5) keeps
ease at least MINIMUM_EASE = 1.3 through every sequence of reviews with
arbitrary difficulties and times. -/
theorem c5_ease_floor_invariant (wid ao : Nat) (l : List (Nat × Difficulty)) :
    MINIMUM_EASE ≤ ((seedCard wid ao).applyReviews l).ease := by
  have step : ∀ (l : List (Nat × Difficulty)) (c : Card), MINIMUM_EASE ≤ c.ease →
      MINIMUM_EASE ≤ (c.applyReviews l).ease := by
    intro l
    induction l with
    | nil => intro c hc; exact hc
    | cons p rest ih =>
      intro c hc
      obtain ⟨t, d⟩ := p
      unfold Card.applyReviews
      rcases hr : c.review t d with _ | c2
      · exact hc
      · exact ih c2 (review_ease_ge c t d c2 hc hr)
  refine step l _ ?_
  show MINIMUM_EASE ≤ DEFAULT_EASE
  norm_num [MINIMUM_EASE, DEFAULT_EASE]

theorem c6_counterexample :
    ((seedCard 0 0).applyReviews [(0, Difficulty.good)]).due.isNone = false ∧
    ((seedCard 0 0).applyReviews [(0, Difficulty.good)]).review_count < 3 :=
  ⟨rfl, by decide⟩

theorem review_due_isSome (c : Card) (now : Nat) (score : Difficulty) (c2 : Card)
    (h : c.review now score = some c2) : c2.due.isSome = true := by
  unfold Card.review at h
  split at h
  · dsimp only at h
    split at h
    · exact Option.noConfusion h
    · simp only [Option.some.injEq] at h
      rw [← h]
      rfl
  · split at h
    · exact Option.noConfusion h
    · dsimp only at h
      split at h
      · exact Option.noConfusion h
      · simp only [Option.some.injEq] at h
        rw [← h]
        rfl

/-- Claim C6 (amended): on every card reachable from the ingestion seed,
due = none implies reviewCount < 3 (indeed due is none exactly until the
first successful review); the converse direction of the claimed equivalence
is false, see the counterexample. -/
theorem c6_due_none_then_learning (wid ao : Nat) (l : List (Nat × Difficulty))
    (h : ((seedCard wid ao).applyReviews l).due = none) :
    ((seedCard wid ao).applyReviews l).review_count < 3 := by
  have inv : ∀ (l : List (Nat × Difficulty)) (c : Card),
      (c.due = none → c.review_count = 0) →
      ((c.applyReviews l).due = none → (c.applyReviews l).review_count = 0) := by
    intro l
    induction l with
    | nil => intro c hc; exact hc
    | cons p rest ih =>
      intro c hc
      obtain ⟨t, d⟩ := p
      unfold Card.applyReviews
      rcases hr : c.review t d with _ | c2
      · exact hc
      · refine ih c2 ?_
        intro hdue
        have hs := review_due_isSome c t d c2 hr
        rw [hdue] at hs
        exact Bool.noConfusion hs
  have h0 := inv l (seedCard wid ao) (fun _ => rfl) h
  rw [h0]
  decide

theorem c6_witness : ((seedCard 0 0).applyReviews []).review_count < 3 :=
  c6_due_none_then_learning 0 0 [] rfl

/-- Type for a review handed to the caller: a sentence (id and text) plus
the aggregated count. -/
inductive Review
  | new (sentence : Nat × String) (unknown_words : Int)
  | due (sentence : Nat × String) (words_due : Int)
deriving DecidableEq, Repr

def Review.sentence : Review → Nat × String
  | .new s _ => s
  | .due s _ => s

/-- WordieSrsAlgorithm: the database tables (sentences, words,
sentence_words, cards) embedded as lists, plus the in-memory fields of the
struct (new_card_limit, the daily counters and the logical clock). -/
structure WordieSrsAlgorithm where
  sentences : List (Nat × String)
  words : List (Nat × String)
  sentence_words : List (Nat × Nat)
  cards : List Card
  new_card_limit : Int
  cards_learned_today : Int
  cards_reviewed_today : Int
  local_time : Nat
deriving DecidableEq, Repr

/-- Point lookup of a card by word id (primary key of `cards`). -/
def findCard (s : WordieSrsAlgorithm) (wid : Nat) : Option Card :=
  s.cards.find? (fun c => c.word_id == wid)

/-- The aggregator's operational test for an unlearned word:
`cards.due IS NULL` for the card of this word. -/
def isNewWord (s : WordieSrsAlgorithm) (wid : Nat) : Bool :=
  match findCard s wid with
  | some c => c.due.isNone
  | none => false

/-- The word ids linked to a sentence, in link order. -/
def linkedWordIds (s : WordieSrsAlgorithm) (sid : Nat) : List Nat :=
  (s.sentence_words.filter (fun p => p.1 == sid)).map (fun p => p.2)

/-- The rows of `SELECT ... FROM sentence_words INNER JOIN cards ... WHERE
sentence_id = sid`: the cards of the sentence's words, in link order. -/
def sentenceCards (s : WordieSrsAlgorithm) (sid : Nat) : List Card :=
  (linkedWordIds s sid).filterMap (fun wid => findCard s wid)

/-- `UPDATE cards SET ... WHERE word_id = c2.word_id`. -/
def updateCard (cs : List Card) (c2 : Card) : List Card :=
  cs.map (fun c => if c.word_id == c2.word_id then c2 else c)

/-- The per-card loop of WordieSrsAlgorithm::review: bump the counters, run
the state machine, write the card back; on a failing card the loop stops
with the already-performed updates kept (the source propagates the error
with `?`). -/
def reviewLoop (now : Nat) (score : Difficulty) :
    List Card → WordieSrsAlgorithm → WordieSrsAlgorithm × Bool
  | [], s => (s, true)
  | c :: rest, s =>
    match c.review now score with
    | none =>
      ({ s with
         cards_reviewed_today := s.cards_reviewed_today + 1,
         cards_learned_today :=
           s.cards_learned_today + (if c.due.isNone then 1 else 0) }, false)
    | some c2 =>
      reviewLoop now score rest
        { s with
          cards := updateCard s.cards c2,
          cards_reviewed_today := s.cards_reviewed_today + 1,
          cards_learned_today :=
            s.cards_learned_today + (if c.due.isNone then 1 else 0) }

/-- WordieSrsAlgorithm::review: review every card of a word linked to the
reviewed sentence. -/
def WordieSrsAlgorithm.review (s : WordieSrsAlgorithm) (r : Review)
    (score : Difficulty) : WordieSrsAlgorithm × Bool :=
  reviewLoop s.local_time score (sentenceCards s r.sentence.1) s

/-- WordieSrsAlgorithm::reset_daily_limits. -/
def WordieSrsAlgorithm.reset_daily_limits (s : WordieSrsAlgorithm) :
    WordieSrsAlgorithm :=
  { s with cards_learned_today := 0 }

/-- Next midnight after the logical clock (whole-day granularity of the
embedded clock). -/
def nextMidnight (t : Nat) : Nat := (t / 86400 + 1) * 86400

/-- WordieSrsAlgorithm::cards_in_learning_count: cards with
review_count < 3, a due date set, and due before next midnight. -/
def WordieSrsAlgorithm.cards_in_learning_count (s : WordieSrsAlgorithm) : Int :=
  ((s.cards.filter (fun c =>
    decide (c.review_count < (INITIAL_INTERVALS.length : Int)) &&
    (match c.due with
     | some d => decide (d < nextMidnight s.local_time)
     | none => false))).length : Int)

/-- Text of a sentence (join with the `sentences` table). -/
def sentenceText (s : WordieSrsAlgorithm) (sid : Nat) : String :=
  ((s.sentences.find? (fun p => p.1 == sid)).map (fun p => p.2)).getD ""

/-- Text of a word (join with the `words` table). -/
def wordText (s : WordieSrsAlgorithm) (wid : Nat) : String :=
  ((s.words.find? (fun p => p.1 == wid)).map (fun p => p.2)).getD ""

/-- Stable insertion into a list sorted by a Nat key. -/
def insertBy (key : α → Nat) (x : α) : List α → List α
  | [] => [x]
  | y :: ys => if key y < key x then y :: insertBy key x ys else x :: y :: ys

/-- Stable insertion sort by a Nat key: the embedding of SQL ORDER BY. -/
def sortBy (key : α → Nat) : List α → List α
  | [] => []
  | x :: xs => insertBy key x (sortBy key xs)

/-- Keys of a list in first-occurrence order, without duplicates: the
embedding of SQL GROUP BY group order. -/
def firstKeys : List Nat → List Nat
  | [] => []
  | k :: rest => k :: (firstKeys rest).filter (fun x => x ≠ k)

/-- First element with minimal key: the embedding of ORDER BY key LIMIT 1. -/
def firstMinBy (key : α → Nat) : List α → Option α
  | [] => none
  | x :: xs =>
    match firstMinBy key xs with
    | none => some x
    | some y => if key y < key x then some y else some x

/-- First element with maximal key: the embedding of ORDER BY key DESC
LIMIT 1. -/
def firstMaxBy (key : α → Nat) : List α → Option α
  | [] => none
  | x :: xs =>
    match firstMaxBy key xs with
    | none => some x
    | some y => if key x < key y then some y else some x

/-- The row a sentence-word link contributes to the unlearned-word queries:
the (sentence_id, card) pair when the linked card exists and is unlearned
(due IS NULL), nothing otherwise. -/
def unlearnedRowOf (s : WordieSrsAlgorithm) (p : Nat × Nat) : Option (Nat × Card) :=
  match findCard s p.2 with
  | some c => if c.due.isNone then some (p.1, c) else none
  | none => none

/-- The inner query of get_next_new: all (sentence_id, card) pairs whose
card is unlearned (due IS NULL), in link order. -/
def unlearnedLinkRows (s : WordieSrsAlgorithm) : List (Nat × Card) :=
  s.sentence_words.filterMap (unlearnedRowOf s)

/-- GROUP BY sentence_id with count(word_id), groups in first-occurrence
order of the row list. -/
def groupCounts (rows : List (Nat × Card)) : List (Nat × Nat) :=
  (firstKeys (rows.map (fun r => r.1))).map
    (fun k => (k, rows.countP (fun r => r.1 == k)))

/-- The unlearned link rows ordered by cards.added_order (the inner
ORDER BY of get_next_new). -/
def newQueryRows (s : WordieSrsAlgorithm) : List (Nat × Card) :=
  sortBy (fun r => r.2.added_order) (unlearnedLinkRows s)

def newQueryGroups (s : WordieSrsAlgorithm) : List (Nat × Nat) :=
  groupCounts (newQueryRows s)

/-- WordieSrsAlgorithm::get_next_new: gate on the learning-card cap and the
daily new-card limit, then pick the sentence with the fewest unlearned
words. -/
def WordieSrsAlgorithm.get_next_new (s : WordieSrsAlgorithm) : Option Review :=
  if MAX_LEARNING_CARDS ≤ s.cards_in_learning_count then none
  else if s.new_card_limit ≤ s.cards_learned_today then none
  else
    (firstMinBy (fun g => g.2) (newQueryGroups s)).map
      (fun g => Review.new (g.1, sentenceText s g.1) (g.2 : Int))

/-- Does the sentence have an unlearned word (the sentences_with_unlearned_words
subquery of get_next_due)? -/
def hasUnlearnedWordB (s : WordieSrsAlgorithm) (sid : Nat) : Bool :=
  s.sentence_words.any (fun p => p.1 == sid && isNewWord s p.2)

/-- The rows of get_next_due: (sentence_id, card) pairs where the sentence
has no unlearned word and the card is due before next midnight. -/
def dueQueryRows (s : WordieSrsAlgorithm) : List (Nat × Card) :=
  s.sentence_words.filterMap (fun p =>
    match findCard s p.2 with
    | some c =>
      match c.due with
      | some d =>
        if !hasUnlearnedWordB s p.1 && decide (d < nextMidnight s.local_time)
        then some (p.1, c) else none
      | none => none
    | none => none)

/-- WordieSrsAlgorithm::get_next_due: the fully-learned sentence with the
most words due before next midnight. -/
def WordieSrsAlgorithm.get_next_due (s : WordieSrsAlgorithm) : Option Review :=
  (firstMaxBy (fun g => g.2) (groupCounts (dueQueryRows s))).map
    (fun g => Review.due (g.1, sentenceText s g.1) (g.2 : Int))

/-- WordieSrsAlgorithm::get_next_card: new first, due otherwise. -/
def WordieSrsAlgorithm.get_next_card (s : WordieSrsAlgorithm) : Option Review :=
  (s.get_next_new).or (s.get_next_due)

/-- Unknown-word count of a sentence: the number of its links to unlearned
words. -/
def unknownCount (s : WordieSrsAlgorithm) (sid : Nat) : Nat :=
  s.sentence_words.countP (fun p => p.1 == sid && isNewWord s p.2)

/-- Minimum of a list of naturals. -/
def minNat? : List Nat → Option Nat
  | [] => none
  | x :: xs =>
    match minNat? xs with
    | none => some x
    | some y => some (min x y)

/-- Earliest added_order among the cards of the unlearned words linked to a
sentence (the candidate words of the claims). -/
def minUnlearnedAddedOrder (s : WordieSrsAlgorithm) (sid : Nat) : Option Nat :=
  minNat? (((unlearnedLinkRows s).filter (fun r => r.1 == sid)).map
    (fun r => r.2.added_order))

/-- The word text a link contributes to get_suggested_sentences: present
when the link belongs to the sentence and its word is unlearned. -/
def unlearnedTextOf (s : WordieSrsAlgorithm) (sid : Nat) (p : Nat × Nat) :
    Option String :=
  if p.1 == sid && isNewWord s p.2 then some (wordText s p.2) else none

/-- Texts of the unlearned words linked to a sentence, in link order. -/
def unlearnedWordTexts (s : WordieSrsAlgorithm) (sid : Nat) : List String :=
  s.sentence_words.filterMap (unlearnedTextOf s sid)

/-- The flat row list of get_suggested_sentences: for each qualifying
sentence group, one row (sentence id, sentence text, word text) per
unlearned word. -/
def rowsOfGroups (s : WordieSrsAlgorithm) :
    List (Nat × Nat) → List (Nat × String × String)
  | [] => []
  | g :: rest =>
    (unlearnedWordTexts s g.1).map (fun w => (g.1, sentenceText s g.1, w)) ++
      rowsOfGroups s rest

/-- The row-collation loop of get_suggested_sentences: group consecutive
rows that share a sentence id, collecting their word texts. -/
def collate : List (Nat × String × String) → List ((Nat × String) × List String)
  | [] => []
  | (sid, txt, w) :: rest =>
    match collate rest with
    | [] => [((sid, txt), [w])]
    | ((sid2, txt2), ws) :: es =>
      if sid2 == sid then ((sid, txt), w :: ws) :: es
      else ((sid, txt), [w]) :: ((sid2, txt2), ws) :: es

/-- The qualifying sentence groups of get_suggested_sentences: unlearned
sentence groups with count at most the limit, ordered by unknown-word
count. -/
def suggestGroups (s : WordieSrsAlgorithm) (new_word_limit : Nat) :
    List (Nat × Nat) :=
  sortBy (fun g => g.2)
    ((groupCounts (unlearnedLinkRows s)).filter
      (fun g => g.2 ≤ new_word_limit))

/-- WordieSrsAlgorithm::get_suggested_sentences: sentences having between 1
and `limit` unlearned words (the subquery only produces groups for
sentences with at least one unlearned word), ordered by unknown-word count,
collated with their unlearned words. -/
def WordieSrsAlgorithm.get_suggested_sentences (s : WordieSrsAlgorithm)
    (new_word_limit : Nat) : List ((Nat × String) × List String) :=
  collate (rowsOfGroups s (suggestGroups s new_word_limit))

theorem c9_counterexample :
    (WordieSrsAlgorithm.reset_daily_limits
      { sentences := [], words := [], sentence_words := [], cards := [],
        new_card_limit := 2, cards_learned_today := 3, cards_reviewed_today := 5,
        local_time := 0 }).cards_reviewed_today = 5 ∧ (5 : Int) ≠ 0 :=
  ⟨rfl, by decide⟩

/-- Claim C9 (amended): reset_daily_limits zeroes cards_learned_today only;
cards_reviewed_today is NOT reset, and every other component of the state
(cards, sentences, words, links, limit, clock) is unchanged. -/
theorem c9_reset_only_learned (s : WordieSrsAlgorithm) :
    s.reset_daily_limits.cards_learned_today = 0 ∧
    s.reset_daily_limits.cards_reviewed_today = s.cards_reviewed_today ∧
    s.reset_daily_limits.cards = s.cards ∧
    s.reset_daily_limits.sentences = s.sentences ∧
    s.reset_daily_limits.words = s.words ∧
    s.reset_daily_limits.sentence_words = s.sentence_words ∧
    s.reset_daily_limits.new_card_limit = s.new_card_limit ∧
    s.reset_daily_limits.local_time = s.local_time :=
  ⟨rfl, rfl, rfl, rfl, rfl, rfl, rfl, rfl⟩

/-- A state one short of the daily new-card limit, whose only New candidate
sentence carries two unlearned words. -/
def cexLimit : WordieSrsAlgorithm :=
  { sentences := [(1, "s1")], words := [(1, "a"), (2, "b")],
    sentence_words := [(1, 1), (1, 2)],
    cards := [seedCard 1 0, seedCard 2 1],
    new_card_limit := 2, cards_learned_today := 1, cards_reviewed_today := 0,
    local_time := 0 }

/-- Claim C10: the daily new-card limit bounds only selection. With
cardsLearnedToday = newCardLimit - 1 = 1, selection still returns the New
sentence with two unlearned words, and a single review of it pushes
cardsLearnedToday to 3, strictly above the limit 2: no limit check happens
inside the review itself. -/
theorem c10_limit_overshoot :
    WordieSrsAlgorithm.get_next_card cexLimit = some (Review.new (1, "s1") 2) ∧
    (WordieSrsAlgorithm.review cexLimit (Review.new (1, "s1") 2)
      Difficulty.good).1.cards_learned_today = 3 ∧
    cexLimit.new_card_limit = 2 ∧ (2 : Int) < 3 := by
  refine ⟨by decide, by decide, by decide, by decide⟩

def isDueOrNone : Option Review → Bool
  | none => true
  | some (Review.due _ _) => true
  | some (Review.new _ _) => false

/-- Claim C3: when the learning-card cap is reached (or the daily new-card
limit is reached), get_next_card never returns a New candidate: it is
get_next_due's answer, which is a Due candidate or none, even if unlearned
words exist. -/
theorem c3_learning_cap_suppresses_new (s : WordieSrsAlgorithm)
    (h : MAX_LEARNING_CARDS ≤ s.cards_in_learning_count ∨
         s.new_card_limit ≤ s.cards_learned_today) :
    isDueOrNone s.get_next_card = true := by
  have hnew : s.get_next_new = none := by
    unfold WordieSrsAlgorithm.get_next_new
    rcases h with h | h
    · rw [if_pos h]
    · by_cases h1 : MAX_LEARNING_CARDS ≤ s.cards_in_learning_count
      · rw [if_pos h1]
      · rw [if_neg h1, if_pos h]
  have hdue : isDueOrNone s.get_next_due = true := by
    unfold WordieSrsAlgorithm.get_next_due
    rcases hm : firstMaxBy (fun g => g.2) (groupCounts (dueQueryRows s)) with _ | g
    · rw [hm]
      rfl
    · rw [hm]
      rfl
  unfold WordieSrsAlgorithm.get_next_card
  rw [hnew]
  exact hdue

/-- A learning card: one successful learning-regime review behind it, due
before the next midnight. -/
def mkLearnCard (i : Nat) : Card :=
  { word_id := i, due := some 0, interval := some 60, review_count := 1,
    ease := DEFAULT_EASE, added_order := i }

/-- Ten cards in learning plus an unlearned word linked to a sentence. -/
def cexLearning : WordieSrsAlgorithm :=
  { sentences := [(1, "s1")], words := [(11, "x")],
    sentence_words := [(1, 11)],
    cards := [mkLearnCard 1, mkLearnCard 2, mkLearnCard 3, mkLearnCard 4,
              mkLearnCard 5, mkLearnCard 6, mkLearnCard 7, mkLearnCard 8,
              mkLearnCard 9, mkLearnCard 10, seedCard 11 0],
    new_card_limit := 50, cards_learned_today := 0, cards_reviewed_today := 0,
    local_time := 0 }

theorem c3_witness : isDueOrNone (WordieSrsAlgorithm.get_next_card cexLearning) = true :=
  c3_learning_cap_suppresses_new cexLearning (Or.inl (by decide))

theorem review_word_id (c : Card) (now : Nat) (score : Difficulty) (c2 : Card)
    (h : c.review now score = some c2) : c2.word_id = c.word_id := by
  unfold Card.review at h
  split at h
  · dsimp only at h
    split at h
    · exact Option.noConfusion h
    · simp only [Option.some.injEq] at h
      rw [← h]
  · split at h
    · exact Option.noConfusion h
    · dsimp only at h
      split at h
      · exact Option.noConfusion h
      · simp only [Option.some.injEq] at h
        rw [← h]

theorem review_getD_word_id (c : Card) (now : Nat) (score : Difficulty) :
    ((c.review now score).getD c).word_id = c.word_id := by
  rcases hr : c.review now score with _ | c2
  · rfl
  · simpa using review_word_id c now score c2 hr

/-- The cards table after the per-card UPDATE statements of the loop. -/
def applyCards (now : Nat) (score : Difficulty) (rows : List Card)
    (cs : List Card) : List Card :=
  rows.foldl (fun acc c => updateCard acc ((c.review now score).getD c)) cs

theorem reviewLoop_fields (now : Nat) (score : Difficulty) :
    ∀ (rows : List Card) (s0 : WordieSrsAlgorithm),
    (∀ c ∈ rows, (c.review now score).isSome = true) →
    (reviewLoop now score rows s0).2 = true ∧
    (reviewLoop now score rows s0).1.cards_reviewed_today
      = s0.cards_reviewed_today + rows.length ∧
    (reviewLoop now score rows s0).1.cards_learned_today
      = s0.cards_learned_today + (rows.countP (fun c => c.due.isNone) : Int) ∧
    (reviewLoop now score rows s0).1.cards = applyCards now score rows s0.cards ∧
    (reviewLoop now score rows s0).1.sentences = s0.sentences ∧
    (reviewLoop now score rows s0).1.words = s0.words ∧
    (reviewLoop now score rows s0).1.sentence_words = s0.sentence_words ∧
    (reviewLoop now score rows s0).1.local_time = s0.local_time ∧
    (reviewLoop now score rows s0).1.new_card_limit = s0.new_card_limit := by
  intro rows
  induction rows with
  | nil =>
    intro s0 _
    refine ⟨rfl, by simp [reviewLoop], by simp [reviewLoop], rfl, rfl, rfl, rfl, rfl, rfl⟩
  | cons c rest ih =>
    intro s0 hsucc
    have hc : (c.review now score).isSome = true := hsucc c (List.mem_cons_self c rest)
    rcases hr : c.review now score with _ | c2
    · rw [hr] at hc
      exact Bool.noConfusion hc
    have hrest : ∀ x ∈ rest, (x.review now score).isSome = true :=
      fun x hx => hsucc x (List.mem_cons_of_mem c hx)
    have hstep : reviewLoop now score (c :: rest) s0 =
        reviewLoop now score rest
          { s0 with
            cards := updateCard s0.cards c2,
            cards_reviewed_today := s0.cards_reviewed_today + 1,
            cards_learned_today :=
              s0.cards_learned_today + (if c.due.isNone then 1 else 0) } := by
      conv_lhs => unfold reviewLoop
      rw [hr]
    have happ : applyCards now score (c :: rest) s0.cards =
        applyCards now score rest (updateCard s0.cards c2) := by
      unfold applyCards
      rw [List.foldl_cons, hr]
      rfl
    obtain ⟨e1, e2, e3, e4, e5, e6, e7, e8, e9⟩ := ih _ hrest
    rw [hstep]
    refine ⟨e1, ?_, ?_, ?_, e5, e6, e7, e8, e9⟩
    · rw [e2]
      dsimp only
      rw [List.length_cons]
      push_cast
      omega
    · rw [e3]
      dsimp only
      rw [List.countP_cons]
      split_ifs with hd <;> push_cast <;> omega
    · rw [e4, happ]

theorem findCard_word_id (s : WordieSrsAlgorithm) (wid : Nat) (c : Card)
    (h : findCard s wid = some c) : c.word_id = wid := by
  have hp := List.find?_some h
  simpa using hp

theorem find?_updateCard_same (c2 : Card) (w : Nat) (hw : c2.word_id = w) :
    ∀ (cs : List Card),
    (cs.find? (fun c => c.word_id == w)).isSome = true →
    (updateCard cs c2).find? (fun c => c.word_id == w) = some c2 := by
  intro cs
  induction cs with
  | nil => intro hex; simp at hex
  | cons c rest ih =>
    intro hex
    unfold updateCard
    simp only [List.map_cons]
    by_cases hc : c.word_id = w
    · have hb : (c.word_id == c2.word_id) = true := by simp [hc, hw]
      rw [hb]
      rw [if_pos rfl]
      exact @List.find?_cons_of_pos _ (fun x => x.word_id == w) c2 _ (by simp [hw])
    · have hb : (c.word_id == c2.word_id) = false := by simp [hc, hw]
      rw [hb]
      rw [if_neg (by exact Bool.false_ne_true)]
      rw [@List.find?_cons_of_neg _ (fun x => x.word_id == w) c _ (by simp [hc])]
      rw [@List.find?_cons_of_neg _ (fun x => x.word_id == w) c _ (by simp [hc])] at hex
      exact ih hex

theorem find?_updateCard_ne (c2 : Card) (w : Nat) (hw : c2.word_id ≠ w) :
    ∀ (cs : List Card),
    (updateCard cs c2).find? (fun c => c.word_id == w) =
      cs.find? (fun c => c.word_id == w) := by
  intro cs
  induction cs with
  | nil => rfl
  | cons c rest ih =>
    unfold updateCard
    simp only [List.map_cons]
    by_cases hcc : c.word_id = c2.word_id
    · have hb : (c.word_id == c2.word_id) = true := by simp [hcc]
      rw [hb, if_pos rfl]
      rw [@List.find?_cons_of_neg _ (fun x => x.word_id == w) c2 _ (by simp [hw])]
      rw [@List.find?_cons_of_neg _ (fun x => x.word_id == w) c _ (by simp [hcc ▸ hw])]
      exact ih
    · have hb : (c.word_id == c2.word_id) = false := by simp [hcc]
      rw [hb, if_neg (by exact Bool.false_ne_true)]
      by_cases hc : c.word_id = w
      · rw [@List.find?_cons_of_pos _ (fun x => x.word_id == w) c _ (by simp [hc]),
           @List.find?_cons_of_pos _ (fun x => x.word_id == w) c _ (by simp [hc])]
      · rw [@List.find?_cons_of_neg _ (fun x => x.word_id == w) c _ (by simp [hc]),
           @List.find?_cons_of_neg _ (fun x => x.word_id == w) c _ (by simp [hc])]
        exact ih

theorem applyCards_find?_ne (now : Nat) (score : Difficulty) :
    ∀ (rows : List Card) (cs : List Card) (w : Nat),
    (∀ r ∈ rows, r.word_id ≠ w) →
    (applyCards now score rows cs).find? (fun c => c.word_id == w) =
      cs.find? (fun c => c.word_id == w) := by
  intro rows
  induction rows with
  | nil => intro cs w _; rfl
  | cons r rest ih =>
    intro cs w h
    have h1 : ((r.review now score).getD r).word_id ≠ w := by
      rw [review_getD_word_id]
      exact h r (List.mem_cons_self r rest)
    show (applyCards now score rest
      (updateCard cs ((r.review now score).getD r))).find? (fun c => c.word_id == w) = _
    rw [ih _ w (fun x hx => h x (List.mem_cons_of_mem r hx))]
    exact find?_updateCard_ne _ w h1 cs

theorem applyCards_find?_found (now : Nat) (score : Difficulty)
    (l1 : List Card) (cw : Card) (l2 : List Card) (cs : List Card)
    (h1 : ∀ r ∈ l1, r.word_id ≠ cw.word_id)
    (h2 : ∀ r ∈ l2, r.word_id ≠ cw.word_id)
    (hex : (cs.find? (fun c => c.word_id == cw.word_id)).isSome = true) :
    (applyCards now score (l1 ++ cw :: l2) cs).find? (fun c => c.word_id == cw.word_id)
      = some ((cw.review now score).getD cw) := by
  unfold applyCards
  rw [List.foldl_append]
  show (applyCards now score l2
    (updateCard (applyCards now score l1 cs) ((cw.review now score).getD cw))).find?
      (fun c => c.word_id == cw.word_id) = _
  rw [applyCards_find?_ne now score l2 _ _ h2]
  refine find?_updateCard_same _ _ (review_getD_word_id cw now score) _ ?_
  rw [applyCards_find?_ne now score l1 cs _ h1]
  exact hex

theorem length_filterMap_of_isSome {α β : Type} (f : α → Option β) :
    ∀ (l : List α), (∀ a ∈ l, (f a).isSome = true) →
    (l.filterMap f).length = l.length := by
  intro l
  induction l with
  | nil => intro _; rfl
  | cons a rest ih =>
    intro h
    rcases hf : f a with _ | b
    · have hx := h a (List.mem_cons_self a rest)
      rw [hf] at hx
      exact Bool.noConfusion hx
    · rw [List.filterMap_cons_some hf]
      rw [List.length_cons, List.length_cons,
        ih (fun x hx => h x (List.mem_cons_of_mem a hx))]

theorem countP_filterMap_findCard (s : WordieSrsAlgorithm) :
    ∀ (l : List Nat), (∀ w ∈ l, (findCard s w).isSome = true) →
    ((l.filterMap (fun wid => findCard s wid)).countP (fun c => c.due.isNone))
      = l.countP (fun wid => isNewWord s wid) := by
  intro l
  induction l with
  | nil => intro _; rfl
  | cons w rest ih =>
    intro h
    rcases hf : findCard s w with _ | c
    · have hx := h w (List.mem_cons_self w rest)
      rw [hf] at hx
      exact Bool.noConfusion hx
    · rw [List.filterMap_cons_some hf, List.countP_cons, List.countP_cons,
        ih (fun x hx => h x (List.mem_cons_of_mem w hx))]
      have : isNewWord s w = c.due.isNone := by
        unfold isNewWord
        rw [hf]
      rw [this]

/-- Claim C2: reviewing a sentence runs the state machine exactly once on
the card of every linked word (each final card is the one-step review of
its prior card), increments cardsReviewedToday by the number of distinct
linked words, and increments cardsLearnedToday by the number of those words
whose card had due = None before the call. -/
theorem c2_review_updates_every_linked_card (s : WordieSrsAlgorithm)
    (r : Review) (score : Difficulty)
    (hnd : (linkedWordIds s r.sentence.1).Nodup)
    (hfound : ∀ wid ∈ linkedWordIds s r.sentence.1, (findCard s wid).isSome = true)
    (hsucc : ∀ c ∈ sentenceCards s r.sentence.1,
      (c.review s.local_time score).isSome = true) :
    (s.review r score).2 = true ∧
    (s.review r score).1.cards_reviewed_today =
      s.cards_reviewed_today + ((linkedWordIds s r.sentence.1).length : Int) ∧
    (s.review r score).1.cards_learned_today =
      s.cards_learned_today +
        ((linkedWordIds s r.sentence.1).countP (fun wid => isNewWord s wid) : Int) ∧
    ∀ wid ∈ linkedWordIds s r.sentence.1,
      findCard (s.review r score).1 wid =
        (findCard s wid).bind (fun c => c.review s.local_time score) := by
  obtain ⟨e1, e2, e3, e4, _, _, _, _, _⟩ :=
    reviewLoop_fields s.local_time score (sentenceCards s r.sentence.1) s hsucc
  unfold WordieSrsAlgorithm.review
  refine ⟨e1, ?_, ?_, ?_⟩
  · rw [e2]
    have hlen : (sentenceCards s r.sentence.1).length =
        (linkedWordIds s r.sentence.1).length :=
      length_filterMap_of_isSome _ _ hfound
    rw [hlen]
  · rw [e3]
    have hcnt : ((sentenceCards s r.sentence.1).countP (fun c => c.due.isNone))
        = (linkedWordIds s r.sentence.1).countP (fun wid => isNewWord s wid) :=
      countP_filterMap_findCard s _ hfound
    rw [hcnt]
  · intro wid hmem
    have hex := hfound wid hmem
    rcases hf : findCard s wid with _ | cw
    · rw [hf] at hex
      exact Bool.noConfusion hex
    have hwid : cw.word_id = wid := findCard_word_id s wid cw hf
    obtain ⟨a1, a2, hsplit⟩ := List.append_of_mem hmem
    have hrows : sentenceCards s r.sentence.1 =
        (a1.filterMap (fun w => findCard s w)) ++
          cw :: (a2.filterMap (fun w => findCard s w)) := by
      unfold sentenceCards
      rw [hsplit, List.filterMap_append, List.filterMap_cons_some hf]
    have hnd2 : (a1 ++ wid :: a2).Nodup := hsplit ▸ hnd
    rw [List.nodup_append] at hnd2
    have hw1 : wid ∉ a1 := by
      intro hx
      exact (hnd2.2.2 hx) (List.mem_cons_self wid a2)
    have hw2 : wid ∉ a2 := by
      have := hnd2.2.1
      rw [List.nodup_cons] at this
      exact this.1
    have h1 : ∀ x ∈ a1.filterMap (fun w => findCard s w), x.word_id ≠ cw.word_id := by
      intro x hx
      obtain ⟨w2, hw2m, hfx⟩ := List.mem_filterMap.mp hx
      rw [findCard_word_id s w2 x hfx, hwid]
      intro heq
      exact hw1 (heq ▸ hw2m)
    have h2 : ∀ x ∈ a2.filterMap (fun w => findCard s w), x.word_id ≠ cw.word_id := by
      intro x hx
      obtain ⟨w2, hw2m, hfx⟩ := List.mem_filterMap.mp hx
      rw [findCard_word_id s w2 x hfx, hwid]
      intro heq
      exact hw2 (heq ▸ hw2m)
    have hcs : cw ∈ sentenceCards s r.sentence.1 := by
      rw [hrows]
      exact List.mem_append_right _ (List.mem_cons_self cw _)
    have hsw := hsucc cw hcs
    rcases hrv : cw.review s.local_time score with _ | c2
    · rw [hrv] at hsw
      exact Bool.noConfusion hsw
    unfold findCard
    rw [e4, hrows]
    have hexw : (s.cards.find? (fun c => c.word_id == cw.word_id)).isSome = true := by
      rw [hwid]
      exact hex
    have hfind := applyCards_find?_found s.local_time score _ cw _ s.cards h1 h2 hexw
    rw [hwid] at hfind
    rw [hfind]
    simp [hrv]

theorem c2_witness :
    (cexLimit.review (Review.new (1, "s1") 2) Difficulty.good).2 = true ∧
    (cexLimit.review (Review.new (1, "s1") 2) Difficulty.good).1.cards_reviewed_today =
      cexLimit.cards_reviewed_today +
        ((linkedWordIds cexLimit (Review.new (1, "s1") 2).sentence.1).length : Int) ∧
    (cexLimit.review (Review.new (1, "s1") 2) Difficulty.good).1.cards_learned_today =
      cexLimit.cards_learned_today +
        ((linkedWordIds cexLimit (Review.new (1, "s1") 2).sentence.1).countP
          (fun wid => isNewWord cexLimit wid) : Int) := by
  have h := c2_review_updates_every_linked_card cexLimit (Review.new (1, "s1") 2)
    Difficulty.good (by decide) (by decide) (by decide)
  exact ⟨h.1, h.2.1, h.2.2.1⟩

/-- A graduated card whose next Good interval exceeds what
chrono::Duration::from_std accepts, so its review fails. -/
def cardBig : Card :=
  { word_id := 2, due := some 5, interval := some 9300000000000000,
    review_count := 3, ease := 5/2, added_order := 1 }

theorem cardBig_fails : cardBig.review 0 Difficulty.good = none := by
  unfold Card.review cardBig
  rw [if_neg (by norm_num [INITIAL_INTERVALS])]
  dsimp only
  have hm : mulDuration 9300000000000000 ((5 : ℚ)/2) = 23250000000000000 := by
    unfold mulDuration
    norm_num
    decide
  rw [hm]
  norm_num [fromStd]

/-- A sentence whose first linked card reviews fine and whose second linked
card fails its review. -/
def cexAtomic : WordieSrsAlgorithm :=
  { sentences := [(1, "s1")], words := [(1, "a"), (2, "b")],
    sentence_words := [(1, 1), (1, 2)],
    cards := [seedCard 1 0, cardBig],
    new_card_limit := 10, cards_learned_today := 0, cards_reviewed_today := 0,
    local_time := 0 }

/-- The first card of cexAtomic after its Good learning review. -/
def cardA2 : Card :=
  { word_id := 1, due := some 600, interval := some 600, review_count := 1,
    ease := DEFAULT_EASE, added_order := 0 }

/-- The observable state after the failing review of cexAtomic: the first
card updated, both counters bumped, the second card untouched. -/
def cexAtomicAfter : WordieSrsAlgorithm :=
  { sentences := [(1, "s1")], words := [(1, "a"), (2, "b")],
    sentence_words := [(1, 1), (1, 2)],
    cards := [cardA2, cardBig],
    new_card_limit := 10, cards_learned_today := 1, cards_reviewed_today := 2,
    local_time := 0 }

theorem c8_counterexample :
    (cexAtomic.review (Review.due (1, "s1") 2) Difficulty.good).2 = false ∧
    findCard (cexAtomic.review (Review.due (1, "s1") 2) Difficulty.good).1 1 ≠
      findCard cexAtomic 1 ∧
    findCard (cexAtomic.review (Review.due (1, "s1") 2) Difficulty.good).1 2 =
      findCard cexAtomic 2 ∧
    (cexAtomic.review (Review.due (1, "s1") 2) Difficulty.good).1.cards_reviewed_today
      = 2 := by
  have hrun : cexAtomic.review (Review.due (1, "s1") 2) Difficulty.good =
      (cexAtomicAfter, false) := by
    show reviewLoop 0 Difficulty.good [seedCard 1 0, cardBig] cexAtomic = _
    conv_lhs => unfold reviewLoop
    rw [show (seedCard 1 0).review 0 Difficulty.good = some cardA2 from rfl]
    conv_lhs => unfold reviewLoop
    rw [cardBig_fails]
    rfl
  refine ⟨by rw [hrun], ?_, by rw [hrun]; exact rfl, by rw [hrun]; exact rfl⟩
  rw [hrun]
  intro hEq
  have h2 : (some cardA2 : Option Card) = some (seedCard 1 0) := hEq
  injection h2 with h3
  have h4 := congrArg Card.due h3
  exact Option.noConfusion h4

theorem reviewLoop_failure (now : Nat) (score : Difficulty) (bad : Card)
    (hbad : bad.review now score = none) (rest : List Card) :
    ∀ (pre : List Card) (s0 : WordieSrsAlgorithm),
    (∀ c ∈ pre, (c.review now score).isSome = true) →
    reviewLoop now score (pre ++ bad :: rest) s0 =
      ({ (reviewLoop now score pre s0).1 with
          cards_reviewed_today :=
            (reviewLoop now score pre s0).1.cards_reviewed_today + 1,
          cards_learned_today :=
            (reviewLoop now score pre s0).1.cards_learned_today +
              (if bad.due.isNone then 1 else 0) }, false) := by
  intro pre
  induction pre with
  | nil =>
    intro s0 _
    show reviewLoop now score (bad :: rest) s0 = _
    conv_lhs => unfold reviewLoop
    rw [hbad]
    exact rfl
  | cons c pre2 ih =>
    intro s0 hpre
    have hc := hpre c (List.mem_cons_self c pre2)
    rcases hr : c.review now score with _ | c2
    · rw [hr] at hc
      exact Bool.noConfusion hc
    have hstep1 : reviewLoop now score ((c :: pre2) ++ bad :: rest) s0 =
        reviewLoop now score (pre2 ++ bad :: rest)
          { s0 with
            cards := updateCard s0.cards c2,
            cards_reviewed_today := s0.cards_reviewed_today + 1,
            cards_learned_today :=
              s0.cards_learned_today + (if c.due.isNone then 1 else 0) } := by
      rw [List.cons_append]
      conv_lhs => unfold reviewLoop
      rw [hr]
    have hstep2 : reviewLoop now score (c :: pre2) s0 =
        reviewLoop now score pre2
          { s0 with
            cards := updateCard s0.cards c2,
            cards_reviewed_today := s0.cards_reviewed_today + 1,
            cards_learned_today :=
              s0.cards_learned_today + (if c.due.isNone then 1 else 0) } := by
      conv_lhs => unfold reviewLoop
      rw [hr]
    rw [hstep1, ih _ (fun x hx => hpre x (List.mem_cons_of_mem c hx)), hstep2]

/-- Claim C8 (amended): submitReview is not atomic. When every per-card step
succeeds the whole sentence is updated (claim C2), but when a card's review
fails mid-loop the operation stops there: the cards already processed keep
their new schedule, the counters count the processed prefix and the failing
card, and the remaining cards are untouched; nothing is rolled back, so a
state where some but not all of the sentence's cards carry the new schedule
is observable. -/
theorem c8_partial_on_failure (s : WordieSrsAlgorithm) (r : Review)
    (score : Difficulty) (pre : List Card) (bad : Card) (rest : List Card)
    (hdec : sentenceCards s r.sentence.1 = pre ++ bad :: rest)
    (hpre : ∀ c ∈ pre, (c.review s.local_time score).isSome = true)
    (hbad : bad.review s.local_time score = none) :
    s.review r score =
      ({ (reviewLoop s.local_time score pre s).1 with
          cards_reviewed_today :=
            (reviewLoop s.local_time score pre s).1.cards_reviewed_today + 1,
          cards_learned_today :=
            (reviewLoop s.local_time score pre s).1.cards_learned_today +
              (if bad.due.isNone then 1 else 0) }, false) := by
  unfold WordieSrsAlgorithm.review
  rw [hdec]
  exact reviewLoop_failure s.local_time score bad hbad rest pre s hpre

theorem c8_witness :
    cexAtomic.review (Review.due (1, "s1") 2) Difficulty.good =
      ({ (reviewLoop cexAtomic.local_time Difficulty.good [seedCard 1 0] cexAtomic).1 with
          cards_reviewed_today :=
            (reviewLoop cexAtomic.local_time Difficulty.good [seedCard 1 0]
              cexAtomic).1.cards_reviewed_today + 1,
          cards_learned_today :=
            (reviewLoop cexAtomic.local_time Difficulty.good [seedCard 1 0]
              cexAtomic).1.cards_learned_today +
              (if cardBig.due.isNone then 1 else 0) }, false) :=
  c8_partial_on_failure cexAtomic (Review.due (1, "s1") 2) Difficulty.good
    [seedCard 1 0] cardBig [] (by rfl) (by decide) cardBig_fails

theorem insertBy_perm {α : Type} (key : α → Nat) (x : α) :
    ∀ (l : List α), (insertBy key x l).Perm (x :: l) := by
  intro l
  induction l with
  | nil => exact List.Perm.refl _
  | cons y ys ih =>
    unfold insertBy
    by_cases h : key y < key x
    · rw [if_pos h]
      exact (ih.cons y).trans (List.Perm.swap x y ys)
    · rw [if_neg h]

theorem sortBy_perm {α : Type} (key : α → Nat) :
    ∀ (l : List α), (sortBy key l).Perm l := by
  intro l
  induction l with
  | nil => exact List.Perm.refl _
  | cons x xs ih =>
    unfold sortBy
    exact (insertBy_perm key x _).trans (ih.cons x)

theorem insertBy_pairwise {α : Type} (key : α → Nat) (x : α) :
    ∀ (l : List α), l.Pairwise (fun a b => key a ≤ key b) →
    (insertBy key x l).Pairwise (fun a b => key a ≤ key b) := by
  intro l
  induction l with
  | nil => intro _; exact List.pairwise_singleton _ _
  | cons y ys ih =>
    intro hp
    rw [List.pairwise_cons] at hp
    obtain ⟨hy, hys⟩ := hp
    unfold insertBy
    by_cases h : key y < key x
    · rw [if_pos h]
      rw [List.pairwise_cons]
      refine ⟨?_, ih hys⟩
      intro b hb
      have hmem := (insertBy_perm key x ys).mem_iff.mp hb
      rcases List.mem_cons.mp hmem with hbx | hby
      · rw [hbx]
        exact le_of_lt h
      · exact hy b hby
    · rw [if_neg h]
      rw [List.pairwise_cons]
      refine ⟨?_, List.pairwise_cons.mpr ⟨hy, hys⟩⟩
      intro b hb
      rcases List.mem_cons.mp hb with hby | hbys
      · rw [hby]
        exact le_of_not_lt h
      · exact le_trans (le_of_not_lt h) (hy b hbys)

theorem sortBy_pairwise {α : Type} (key : α → Nat) :
    ∀ (l : List α), (sortBy key l).Pairwise (fun a b => key a ≤ key b) := by
  intro l
  induction l with
  | nil => exact List.Pairwise.nil
  | cons x xs ih =>
    unfold sortBy
    exact insertBy_pairwise key x _ ih

theorem firstMinBy_none {α : Type} (key : α → Nat) :
    ∀ (l : List α), firstMinBy key l = none → l = [] := by
  intro l
  cases l with
  | nil => intro _; rfl
  | cons a as =>
    intro h
    unfold firstMinBy at h
    rcases hm : firstMinBy key as with _ | y
    · rw [hm] at h
      exact Option.noConfusion h
    · rw [hm] at h
      dsimp only at h
      by_cases hk : key y < key a
      · rw [if_pos hk] at h
        exact Option.noConfusion h
      · rw [if_neg hk] at h
        exact Option.noConfusion h

theorem firstMinBy_split {α : Type} (key : α → Nat) :
    ∀ (l : List α) (x : α), firstMinBy key l = some x →
    ∃ l1 l2, l = l1 ++ x :: l2 ∧ (∀ y ∈ l1, key x < key y) ∧
      (∀ y ∈ l2, key x ≤ key y) := by
  intro l
  induction l with
  | nil => intro x h; exact Option.noConfusion h
  | cons a as ih =>
    intro x h
    unfold firstMinBy at h
    rcases hm : firstMinBy key as with _ | y
    · rw [hm] at h
      dsimp only at h
      simp only [Option.some.injEq] at h
      have has : as = [] := firstMinBy_none key as hm
      subst has
      rw [← h]
      exact ⟨[], [], rfl, by intro b hb; exact absurd hb (List.not_mem_nil b),
        by intro b hb; exact absurd hb (List.not_mem_nil b)⟩
    · rw [hm] at h
      dsimp only at h
      by_cases hk : key y < key a
      · rw [if_pos hk] at h
        simp only [Option.some.injEq] at h
        obtain ⟨l1, l2, heq, h1, h2⟩ := ih y hm
        rw [← h]
        refine ⟨a :: l1, l2, by rw [heq]; rfl, ?_, h2⟩
        intro b hb
        rcases List.mem_cons.mp hb with hba | hbl1
        · rw [hba]
          exact hk
        · exact h1 b hbl1
      · rw [if_neg hk] at h
        simp only [Option.some.injEq] at h
        rw [← h]
        refine ⟨[], as, rfl, by intro b hb; exact absurd hb (List.not_mem_nil b), ?_⟩
        intro b hb
        obtain ⟨l1, l2, heq, h1, h2⟩ := ih y hm
        have hay : key a ≤ key y := le_of_not_lt hk
        rw [heq] at hb
        rcases List.mem_append.mp hb with hb1 | hb2
        · exact le_trans hay (le_of_lt (h1 b hb1))
        · rcases List.mem_cons.mp hb2 with hby | hbl2
          · rw [hby]
            exact hay
          · exact le_trans hay (h2 b hbl2)

theorem minNat?_spec :
    ∀ (l : List Nat) (m : Nat), minNat? l = some m → m ∈ l ∧ ∀ x ∈ l, m ≤ x := by
  intro l
  induction l with
  | nil => intro m h; exact Option.noConfusion h
  | cons a as ih =>
    intro m h
    unfold minNat? at h
    rcases hm : minNat? as with _ | y
    · rw [hm] at h
      dsimp only at h
      simp only [Option.some.injEq] at h
      have has : as = [] := by
        cases as with
        | nil => rfl
        | cons b bs =>
          unfold minNat? at hm
          rcases hz : minNat? bs with _ | z <;> rw [hz] at hm <;>
            dsimp only at hm <;> exact Option.noConfusion hm
      subst has
      rw [← h]
      exact ⟨List.mem_singleton_self a, by
        intro x hx
        rw [List.mem_singleton.mp hx]⟩
    · rw [hm] at h
      dsimp only at h
      simp only [Option.some.injEq] at h
      obtain ⟨hmem, hle⟩ := ih y hm
      rw [← h]
      by_cases hya : y ≤ a
      · rw [min_eq_right hya]
        refine ⟨List.mem_cons_of_mem a hmem, ?_⟩
        intro x hx
        rcases List.mem_cons.mp hx with hxa | hxas
        · rw [hxa]
          exact hya
        · exact hle x hxas
      · rw [min_eq_left (le_of_not_le hya)]
        refine ⟨List.mem_cons_self a as, ?_⟩
        intro x hx
        rcases List.mem_cons.mp hx with hxa | hxas
        · rw [hxa]
        · exact le_trans (le_of_not_le hya) (hle x hxas)

theorem minNat?_isSome : ∀ (l : List Nat), l ≠ [] → (minNat? l).isSome = true := by
  intro l
  cases l with
  | nil => intro h; exact absurd rfl h
  | cons a as =>
    intro _
    unfold minNat?
    rcases minNat? as with _ | y
    · rfl
    · rfl

theorem minNat?_eq_some_iff (l : List Nat) (m : Nat) :
    minNat? l = some m ↔ m ∈ l ∧ ∀ x ∈ l, m ≤ x := by
  constructor
  · exact minNat?_spec l m
  · rintro ⟨hmem, hle⟩
    have hne : l ≠ [] := by
      intro h
      rw [h] at hmem
      exact absurd hmem (List.not_mem_nil m)
    have hs := minNat?_isSome l hne
    rcases hm : minNat? l with _ | y
    · rw [hm] at hs
      exact Bool.noConfusion hs
    · obtain ⟨hymem, hyle⟩ := minNat?_spec l y hm
      have h1 : m ≤ y := hle y hymem
      have h2 : y ≤ m := hyle m hmem
      rw [le_antisymm h2 h1]

theorem minNat?_perm {l l' : List Nat} (hp : l.Perm l') :
    minNat? l = minNat? l' := by
  rcases hm : minNat? l with _ | y
  · rcases hm' : minNat? l' with _ | z
    · rfl
    · obtain ⟨hz, _⟩ := minNat?_spec l' z hm'
      have : l ≠ [] := by
        intro h
        rw [h] at hp
        rw [hp.symm.eq_nil] at hz
        exact absurd hz (List.not_mem_nil z)
      have hs := minNat?_isSome l this
      rw [hm] at hs
      exact Bool.noConfusion hs
  · obtain ⟨hy, hyle⟩ := minNat?_spec l y hm
    symm
    rw [minNat?_eq_some_iff]
    exact ⟨hp.mem_iff.mp hy, fun x hx => hyle x (hp.mem_iff.mpr hx)⟩

/-- The first occurrence of `a` in `L` lies strictly before every occurrence
of `b`: some prefix of `L` contains `a` and no `b`. -/
def Before (L : List Nat) (a b : Nat) : Prop :=
  ∃ p q, L = p ++ q ∧ a ∈ p ∧ b ∉ p ∧ b ∈ q

theorem mem_firstKeys : ∀ (l : List Nat) (a : Nat), a ∈ firstKeys l ↔ a ∈ l := by
  intro l
  induction l with
  | nil => intro a; simp [firstKeys]
  | cons k rest ih =>
    intro a
    unfold firstKeys
    constructor
    · intro h
      rcases List.mem_cons.mp h with h1 | h2
      · rw [h1]
        exact List.mem_cons_self k rest
      · have hm := List.mem_filter.mp h2
        exact List.mem_cons_of_mem k ((ih a).mp hm.1)
    · intro h
      rcases List.mem_cons.mp h with h1 | h2
      · rw [h1]
        exact List.mem_cons_self k _
      · by_cases hak : a = k
        · rw [hak]
          exact List.mem_cons_self k _
        · refine List.mem_cons_of_mem k (List.mem_filter.mpr ⟨(ih a).mpr h2, ?_⟩)
          simp [hak]

theorem firstKeys_pairwise_before : ∀ (l : List Nat),
    (firstKeys l).Pairwise (Before l) := by
  intro l
  induction l with
  | nil => exact List.Pairwise.nil
  | cons k rest ih =>
    unfold firstKeys
    rw [List.pairwise_cons]
    constructor
    · intro b hb
      have hbf := List.mem_filter.mp hb
      have hbne : b ≠ k := by simpa using hbf.2
      have hbrest : b ∈ rest := (mem_firstKeys rest b).mp hbf.1
      refine ⟨[k], rest, rfl, List.mem_singleton_self k, ?_, hbrest⟩
      simp [hbne]
    · have hsub : ((firstKeys rest).filter (fun x => x ≠ k)).Pairwise (Before rest) :=
        ih.sublist (List.filter_sublist _)
      refine hsub.imp_of_mem ?_
      intro a b _ hb hab
      obtain ⟨p, q, heq, hap, hbnp, hbq⟩ := hab
      have hbne : b ≠ k := by simpa using (List.mem_filter.mp hb).2
      refine ⟨k :: p, q, by rw [heq]; rfl, List.mem_cons_of_mem k hap, ?_, hbq⟩
      intro hc
      rcases List.mem_cons.mp hc with h1 | h2
      · exact hbne h1
      · exact hbnp h2

theorem before_min_le (rows : List (Nat × Card))
    (hs : rows.Pairwise (fun a b => a.2.added_order ≤ b.2.added_order))
    (a b : Nat) (hb : Before (rows.map (fun r => r.1)) a b) (ma mb : Nat)
    (hma : minNat? ((rows.filter (fun r => r.1 == a)).map
      (fun r => r.2.added_order)) = some ma)
    (hmb : minNat? ((rows.filter (fun r => r.1 == b)).map
      (fun r => r.2.added_order)) = some mb) :
    ma ≤ mb := by
  obtain ⟨p, q, heq, hap, hbnp, hbq⟩ := hb
  obtain ⟨P, Q, hrowseq, hPmap, hQmap⟩ := List.map_eq_append_iff.mp heq
  have hap2 : a ∈ P.map (fun r => r.1) := hPmap ▸ hap
  obtain ⟨ra, hraP, hra1⟩ := List.mem_map.mp hap2
  obtain ⟨hmbmem, _⟩ := minNat?_spec _ mb hmb
  obtain ⟨rb, hrbf, hrb2⟩ := List.mem_map.mp hmbmem
  have hrbmem := (List.mem_filter.mp hrbf).1
  have hrb1 : rb.1 = b := by simpa using (List.mem_filter.mp hrbf).2
  have hrbQ : rb ∈ Q := by
    rw [hrowseq] at hrbmem
    rcases List.mem_append.mp hrbmem with h1 | h2
    · exfalso
      apply hbnp
      rw [← hPmap]
      exact List.mem_map.mpr ⟨rb, h1, hrb1⟩
    · exact h2
  have hPQ : ∀ x ∈ P, ∀ y ∈ Q, x.2.added_order ≤ y.2.added_order := by
    rw [hrowseq] at hs
    exact (List.pairwise_append.mp hs).2.2
  have hra_le : ra.2.added_order ≤ rb.2.added_order := hPQ ra hraP rb hrbQ
  have hra_mem_aos : ra.2.added_order ∈
      (rows.filter (fun r => r.1 == a)).map (fun r => r.2.added_order) := by
    refine List.mem_map.mpr ⟨ra, ?_, rfl⟩
    refine List.mem_filter.mpr ⟨?_, by simp [hra1]⟩
    rw [hrowseq]
    exact List.mem_append.mpr (Or.inl hraP)
  have hle := (minNat?_spec _ ma hma).2 _ hra_mem_aos
  rw [← hrb2]
  exact le_trans hle hra_le

theorem mem_groupCounts (rows : List (Nat × Card)) (g : Nat × Nat) :
    g ∈ groupCounts rows ↔
      g.1 ∈ firstKeys (rows.map (fun r => r.1)) ∧
      g.2 = rows.countP (fun r => r.1 == g.1) := by
  unfold groupCounts
  constructor
  · intro h
    obtain ⟨k, hk, hkeq⟩ := List.mem_map.mp h
    rw [← hkeq]
    exact ⟨hk, rfl⟩
  · rintro ⟨h1, h2⟩
    have hg : g = (g.1, rows.countP (fun r => r.1 == g.1)) := by
      rcases g with ⟨ga, gb⟩
      simp only at h2
      rw [h2]
    rw [hg]
    exact List.mem_map.mpr ⟨g.1, h1, rfl⟩

theorem countP_unlearned_aux (s : WordieSrsAlgorithm) (sid : Nat) :
    ∀ (l : List (Nat × Nat)),
    ((l.filterMap (unlearnedRowOf s)).countP (fun r => r.1 == sid))
      = l.countP (fun p => p.1 == sid && isNewWord s p.2) := by
  intro l
  induction l with
  | nil => rfl
  | cons p rest ih =>
    rcases hf : findCard s p.2 with _ | c
    · have hrow : unlearnedRowOf s p = none := by
        unfold unlearnedRowOf
        rw [hf]
      rw [List.filterMap_cons_none hrow, List.countP_cons, ih]
      have hnw : isNewWord s p.2 = false := by
        unfold isNewWord
        rw [hf]
      simp [hnw]
    · by_cases hdue : c.due.isNone = true
      · have hrow : unlearnedRowOf s p = some (p.1, c) := by
          unfold unlearnedRowOf
          rw [hf]
          dsimp only
          rw [if_pos hdue]
        rw [List.filterMap_cons_some hrow, List.countP_cons, List.countP_cons, ih]
        have hnw : isNewWord s p.2 = true := by
          unfold isNewWord
          rw [hf]
          exact hdue
        simp [hnw]
      · have hrow : unlearnedRowOf s p = none := by
          unfold unlearnedRowOf
          rw [hf]
          dsimp only
          rw [if_neg hdue]
        rw [List.filterMap_cons_none hrow, List.countP_cons, ih]
        have hnw : isNewWord s p.2 = false := by
          unfold isNewWord
          rw [hf]
          simp only [Bool.not_eq_true] at hdue
          exact hdue
        simp [hnw]

theorem countP_unlearnedLinkRows (s : WordieSrsAlgorithm) (sid : Nat) :
    (unlearnedLinkRows s).countP (fun r => r.1 == sid) = unknownCount s sid := by
  unfold unlearnedLinkRows unknownCount
  exact countP_unlearned_aux s sid s.sentence_words

theorem countP_newQueryRows (s : WordieSrsAlgorithm) (sid : Nat) :
    (newQueryRows s).countP (fun r => r.1 == sid) = unknownCount s sid := by
  unfold newQueryRows
  rw [List.Perm.countP_eq _ (sortBy_perm _ _)]
  exact countP_unlearnedLinkRows s sid

theorem minAos_newQueryRows (s : WordieSrsAlgorithm) (sid : Nat) :
    minNat? (((newQueryRows s).filter (fun r => r.1 == sid)).map
      (fun r => r.2.added_order)) = minUnlearnedAddedOrder s sid := by
  unfold minUnlearnedAddedOrder newQueryRows
  exact minNat?_perm (((sortBy_perm _ _).filter _).map _)

/-- Claim C4: whenever new-card selection is not suppressed and get_next_new
returns a candidate, that candidate is a sentence with at least one
unlearned word whose unlearned-word count is reported and is minimal among
all sentences with unlearned words; and among sentences tying on that
minimal count, the returned sentence's earliest unlearned-word added_order
is smallest. -/
theorem c4_new_candidate_minimal (s : WordieSrsAlgorithm) (sid : Nat)
    (txt : String) (n : Int)
    (h : s.get_next_new = some (Review.new (sid, txt) n)) :
    0 < unknownCount s sid ∧
    n = (unknownCount s sid : Int) ∧
    (∀ sid2, 0 < unknownCount s sid2 → unknownCount s sid ≤ unknownCount s sid2) ∧
    (∀ sid2 m m2, 0 < unknownCount s sid2 →
      unknownCount s sid2 = unknownCount s sid →
      minUnlearnedAddedOrder s sid = some m →
      minUnlearnedAddedOrder s sid2 = some m2 → m ≤ m2) := by
  unfold WordieSrsAlgorithm.get_next_new at h
  by_cases h1 : MAX_LEARNING_CARDS ≤ s.cards_in_learning_count
  · rw [if_pos h1] at h
    exact Option.noConfusion h
  rw [if_neg h1] at h
  by_cases h2 : s.new_card_limit ≤ s.cards_learned_today
  · rw [if_pos h2] at h
    exact Option.noConfusion h
  rw [if_neg h2] at h
  rcases hg : firstMinBy (fun g => g.2) (newQueryGroups s) with _ | g0
  · rw [hg] at h
    exact Option.noConfusion h
  rw [hg] at h
  simp only [Option.map_some', Option.some.injEq, Review.new.injEq,
    Prod.mk.injEq] at h
  obtain ⟨⟨hsid, htxt⟩, hn⟩ := h
  obtain ⟨l1, l2, hsplit, hl1, hl2⟩ := firstMinBy_split _ _ _ hg
  have hg0mem : g0 ∈ newQueryGroups s := by
    rw [hsplit]
    exact List.mem_append_right _ (List.mem_cons_self _ _)
  have hg0 := (mem_groupCounts _ _).mp hg0mem
  have hcnt0 : g0.2 = unknownCount s sid := by
    rw [hg0.2, hsid, countP_newQueryRows]
  have hmemG : ∀ sid2, 0 < unknownCount s sid2 →
      (sid2, (newQueryRows s).countP (fun r => r.1 == sid2)) ∈ newQueryGroups s := by
    intro sid2 hpos
    refine (mem_groupCounts _ _).mpr ⟨?_, rfl⟩
    rw [mem_firstKeys]
    have hpos2 : 0 < (newQueryRows s).countP (fun r => r.1 == sid2) := by
      rw [countP_newQueryRows]
      exact hpos
    obtain ⟨r, hrmem, hrp⟩ := List.countP_pos_iff.mp hpos2
    exact List.mem_map.mpr ⟨r, hrmem, by simpa using hrp⟩
  refine ⟨?_, ?_, ?_, ?_⟩
  · have hk := (mem_firstKeys _ _).mp hg0.1
    obtain ⟨r, hrmem, hr1⟩ := List.mem_map.mp hk
    rw [← hcnt0, hg0.2]
    refine List.countP_pos_iff.mpr ⟨r, hrmem, ?_⟩
    simp [hr1]
  · rw [← hn, hcnt0]
  · intro sid2 hpos
    have hmem2 := hmemG sid2 hpos
    rw [hsplit] at hmem2
    rcases List.mem_append.mp hmem2 with hIn1 | hIn2
    · have hlt := hl1 _ hIn1
      rw [← hcnt0, ← countP_newQueryRows s sid2]
      exact le_of_lt hlt
    · rcases List.mem_cons.mp hIn2 with hEq | hIn3
      · rw [← hcnt0, ← countP_newQueryRows s sid2]
        exact le_of_eq (congrArg Prod.snd hEq.symm)
      · have hle := hl2 _ hIn3
        rw [← hcnt0, ← countP_newQueryRows s sid2]
        exact hle
  · intro sid2 m m2 hpos hceq hm hm2
    by_cases hss : sid2 = sid
    · rw [hss, hm] at hm2
      simp only [Option.some.injEq] at hm2
      rw [hm2]
    · have hmem2 := hmemG sid2 hpos
      rw [hsplit] at hmem2
      rcases List.mem_append.mp hmem2 with hIn1 | hIn2
      · exfalso
        have hlt := hl1 _ hIn1
        rw [hcnt0] at hlt
        have hcc : ((sid2, (newQueryRows s).countP (fun r => r.1 == sid2)) : Nat × Nat).2
            = unknownCount s sid2 := countP_newQueryRows s sid2
        rw [hcc] at hlt
        omega
      · rcases List.mem_cons.mp hIn2 with hEq | hIn3
        · exfalso
          apply hss
          have hfst := congrArg Prod.fst hEq
          rw [hsid] at hfst
          exact hfst
        · have hGdef : newQueryGroups s =
              (firstKeys ((newQueryRows s).map (fun r => r.1))).map
                (fun k => (k, (newQueryRows s).countP (fun r => r.1 == k))) := rfl
          rw [hGdef] at hsplit
          obtain ⟨k1, krest, hkeq, hk1, hkr⟩ := List.map_eq_append_iff.mp hsplit
          cases krest with
          | nil => exact absurd hkr (by simp)
          | cons k0 k2 =>
            rw [List.map_cons] at hkr
            injection hkr with hk0 hk2map
            have hk0sid : k0 = sid := by
              have hfst := congrArg Prod.fst hk0
              rw [hsid] at hfst
              exact hfst
            rw [← hk2map] at hIn3
            obtain ⟨kk, hkkmem, hkkeq⟩ := List.mem_map.mp hIn3
            have hkk : kk = sid2 := congrArg Prod.fst hkkeq
            have hpw := firstKeys_pairwise_before
              ((newQueryRows s).map (fun r => r.1))
            rw [hkeq] at hpw
            have hrel := (List.pairwise_append.mp hpw).2.1
            rw [List.pairwise_cons] at hrel
            have hbefore := hrel.1 kk hkkmem
            rw [hk0sid, hkk] at hbefore
            refine before_min_le (newQueryRows s) ?_ sid sid2 hbefore m m2 ?_ ?_
            · unfold newQueryRows
              exact sortBy_pairwise _ _
            · rw [minAos_newQueryRows]
              exact hm
            · rw [minAos_newQueryRows]
              exact hm2

/-- Two one-word sentences tying on unlearned-word count 1; the second
sentence's word has the earlier added_order. -/
def cexTie : WordieSrsAlgorithm :=
  { sentences := [(1, "s1"), (2, "s2")], words := [(1, "a"), (2, "b")],
    sentence_words := [(1, 1), (2, 2)],
    cards := [seedCard 1 5, seedCard 2 3],
    new_card_limit := 10, cards_learned_today := 0, cards_reviewed_today := 0,
    local_time := 0 }

theorem c4_witness :
    0 < unknownCount cexTie 2 ∧
    (1 : Int) = (unknownCount cexTie 2 : Int) ∧
    unknownCount cexTie 2 ≤ unknownCount cexTie 1 ∧
    (3 : Nat) ≤ 5 := by
  have h := c4_new_candidate_minimal cexTie 2 "s2" 1 (by decide)
  exact ⟨h.1, h.2.1, h.2.2.1 1 (by decide),
    h.2.2.2 1 3 5 (by decide) (by decide) (by decide) (by decide)⟩

theorem firstKeys_nodup : ∀ (l : List Nat), (firstKeys l).Nodup := by
  intro l
  induction l with
  | nil => exact List.nodup_nil
  | cons k rest ih =>
    unfold firstKeys
    rw [List.nodup_cons]
    constructor
    · intro hk
      have := (List.mem_filter.mp hk).2
      simp at this
    · exact ih.filter _

theorem length_unlearnedWordTexts (s : WordieSrsAlgorithm) (sid : Nat) :
    (unlearnedWordTexts s sid).length = unknownCount s sid := by
  unfold unlearnedWordTexts unknownCount
  have aux : ∀ (l : List (Nat × Nat)),
      (l.filterMap (unlearnedTextOf s sid)).length =
        l.countP (fun p => p.1 == sid && isNewWord s p.2) := by
    intro l
    induction l with
    | nil => rfl
    | cons p rest ih =>
      by_cases hp : (p.1 == sid && isNewWord s p.2) = true
      · have hrow : unlearnedTextOf s sid p = some (wordText s p.2) := by
          unfold unlearnedTextOf
          rw [if_pos hp]
        rw [List.filterMap_cons_some hrow, List.length_cons, ih,
          List.countP_cons, if_pos hp]
      · have hrow : unlearnedTextOf s sid p = none := by
          unfold unlearnedTextOf
          rw [if_neg hp]
        rw [List.filterMap_cons_none hrow, ih, List.countP_cons, if_neg hp]
        omega
  exact aux s.sentence_words

theorem collate_run (sid : Nat) (txt : String) :
    ∀ (ws : List String) (rows2 : List (Nat × String × String)),
    ws ≠ [] →
    (∀ e es, collate rows2 = e :: es → e.1.1 ≠ sid) →
    collate (ws.map (fun w => (sid, txt, w)) ++ rows2) =
      ((sid, txt), ws) :: collate rows2 := by
  intro ws
  induction ws with
  | nil => intro rows2 hne _; exact absurd rfl hne
  | cons w ws2 ih =>
    intro rows2 _ hhead
    cases ws2 with
    | nil =>
      show collate ((sid, txt, w) :: rows2) = ((sid, txt), [w]) :: collate rows2
      conv_lhs => unfold collate
      rcases hc : collate rows2 with _ | ⟨⟨⟨sid2, txt2⟩, ws3⟩, es⟩
      · rfl
      · have hne2 : sid2 ≠ sid := hhead _ _ hc
        dsimp only
        rw [if_neg (by simp [hne2])]
    | cons w2 ws3 =>
      have hrec := ih rows2 (by simp) hhead
      show collate ((sid, txt, w) ::
          ((w2 :: ws3).map (fun w => (sid, txt, w)) ++ rows2)) =
        ((sid, txt), w :: w2 :: ws3) :: collate rows2
      conv_lhs => unfold collate
      rw [hrec]
      dsimp only
      rw [if_pos (by simp)]

theorem collate_rowsOfGroups (s : WordieSrsAlgorithm) :
    ∀ (gs : List (Nat × Nat)),
    (∀ g ∈ gs, unlearnedWordTexts s g.1 ≠ []) →
    ((gs.map (fun g => g.1)).Nodup) →
    collate (rowsOfGroups s gs) =
      gs.map (fun g => ((g.1, sentenceText s g.1), unlearnedWordTexts s g.1)) := by
  intro gs
  induction gs with
  | nil => intro _ _; rfl
  | cons g gs2 ih =>
    intro hne hnd
    rw [List.map_cons, List.nodup_cons] at hnd
    have ih2 := ih (fun g2 hg2 => hne g2 (List.mem_cons_of_mem g hg2)) hnd.2
    have hhead : ∀ e es, collate (rowsOfGroups s gs2) = e :: es → e.1.1 ≠ g.1 := by
      intro e es heq
      rw [ih2] at heq
      cases gs2 with
      | nil => exact absurd heq (by simp)
      | cons g2 r =>
        rw [List.map_cons] at heq
        injection heq with he _
        have he2 : e.1.1 = g2.1 := by rw [← he]
        rw [he2]
        intro hg21
        apply hnd.1
        rw [List.map_cons, ← hg21]
        exact List.mem_cons_self _ _
    show collate ((unlearnedWordTexts s g.1).map
        (fun w => (g.1, sentenceText s g.1, w)) ++ rowsOfGroups s gs2) = _
    rw [collate_run g.1 (sentenceText s g.1) _ _
      (hne g (List.mem_cons_self g gs2)) hhead, ih2]
    rfl

theorem mem_suggestGroups (s : WordieSrsAlgorithm) (limit : Nat)
    (g : Nat × Nat) (h : g ∈ suggestGroups s limit) :
    g.2 = unknownCount s g.1 ∧ 0 < unknownCount s g.1 ∧
      unknownCount s g.1 ≤ limit := by
  unfold suggestGroups at h
  have h2 := (sortBy_perm _ _).mem_iff.mp h
  have h3 := List.mem_filter.mp h2
  have h4 := (mem_groupCounts _ _).mp h3.1
  have hcnt : g.2 = unknownCount s g.1 := by
    rw [h4.2, countP_unlearnedLinkRows]
  refine ⟨hcnt, ?_, ?_⟩
  · have hk := (mem_firstKeys _ _).mp h4.1
    obtain ⟨r, hrmem, hr1⟩ := List.mem_map.mp hk
    rw [← countP_unlearnedLinkRows s g.1]
    exact List.countP_pos_iff.mpr ⟨r, hrmem, by simp [hr1]⟩
  · rw [← hcnt]
    simpa using h3.2

theorem suggestGroups_fst_nodup (s : WordieSrsAlgorithm) (limit : Nat) :
    ((suggestGroups s limit).map (fun g => g.1)).Nodup := by
  unfold suggestGroups
  have h1 : ((groupCounts (unlearnedLinkRows s)).map (fun g => g.1)) =
      firstKeys ((unlearnedLinkRows s).map (fun r => r.1)) := by
    unfold groupCounts
    rw [List.map_map]
    exact List.map_id _
  have h2 : ((groupCounts (unlearnedLinkRows s)).map (fun g => g.1)).Nodup := by
    rw [h1]
    exact firstKeys_nodup _
  have h3 : (((groupCounts (unlearnedLinkRows s)).filter
      (fun g => g.2 ≤ limit)).map (fun g => g.1)).Nodup :=
    h2.sublist ((List.filter_sublist _).map _)
  exact (((sortBy_perm _ _).map _).symm.nodup) h3

theorem mem_suggestGroups_of (s : WordieSrsAlgorithm) (limit sid2 : Nat)
    (h1 : 0 < unknownCount s sid2) (h2 : unknownCount s sid2 ≤ limit) :
    (sid2, unknownCount s sid2) ∈ suggestGroups s limit := by
  unfold suggestGroups
  rw [(sortBy_perm _ _).mem_iff]
  refine List.mem_filter.mpr ⟨?_, by simpa using h2⟩
  refine (mem_groupCounts _ _).mpr ⟨?_, (countP_unlearnedLinkRows s sid2).symm⟩
  rw [mem_firstKeys]
  have hpos2 : 0 < (unlearnedLinkRows s).countP (fun r => r.1 == sid2) := by
    rw [countP_unlearnedLinkRows]
    exact h1
  obtain ⟨r, hrmem, hrp⟩ := List.countP_pos_iff.mp hpos2
  exact List.mem_map.mpr ⟨r, hrmem, by simpa using hrp⟩

theorem get_suggested_sentences_eq (s : WordieSrsAlgorithm) (limit : Nat) :
    s.get_suggested_sentences limit =
      (suggestGroups s limit).map
        (fun g => ((g.1, sentenceText s g.1), unlearnedWordTexts s g.1)) := by
  unfold WordieSrsAlgorithm.get_suggested_sentences
  refine collate_rowsOfGroups s _ ?_ (suggestGroups_fst_nodup s limit)
  intro g hg
  have hm := mem_suggestGroups s limit g hg
  intro hnil
  have hlen := length_unlearnedWordTexts s g.1
  rw [hnil] at hlen
  simp only [List.length_nil] at hlen
  omega

/-- Claim C7 (amended): get_suggested_sentences(limit) returns exactly the
sentences having between 1 and limit unlearned words (never the
zero-unknown sentences), ordered by ascending unknown-word count, each
paired with its sentence text and the texts of its unlearned words. -/
theorem c7_suggest_amended (s : WordieSrsAlgorithm) (limit : Nat) :
    (∀ e ∈ s.get_suggested_sentences limit,
      0 < unknownCount s e.1.1 ∧ unknownCount s e.1.1 ≤ limit ∧
      e.1.2 = sentenceText s e.1.1 ∧ e.2 = unlearnedWordTexts s e.1.1) ∧
    (∀ sid2, 0 < unknownCount s sid2 → unknownCount s sid2 ≤ limit →
      ((s.get_suggested_sentences limit).map (fun e => e.1.1)).count sid2 = 1) ∧
    (s.get_suggested_sentences limit).Pairwise
      (fun a b => unknownCount s a.1.1 ≤ unknownCount s b.1.1) := by
  rw [get_suggested_sentences_eq]
  refine ⟨?_, ?_, ?_⟩
  · intro e he
    obtain ⟨g, hg, hge⟩ := List.mem_map.mp he
    obtain ⟨hcnt, hpos, hle⟩ := mem_suggestGroups s limit g hg
    rw [← hge]
    exact ⟨hpos, hle, rfl, rfl⟩
  · intro sid2 h1 h2
    have hmm : (((suggestGroups s limit).map
        (fun g => ((g.1, sentenceText s g.1), unlearnedWordTexts s g.1))).map
          (fun e => e.1.1))
        = (suggestGroups s limit).map (fun g => g.1) := by
      rw [List.map_map]
      rfl
    rw [hmm]
    have hnd := suggestGroups_fst_nodup s limit
    have hmem := mem_suggestGroups_of s limit sid2 h1 h2
    have hmem2 : sid2 ∈ (suggestGroups s limit).map (fun g => g.1) :=
      List.mem_map.mpr ⟨_, hmem, rfl⟩
    exact List.count_eq_one_of_mem hnd hmem2
  · have hp2 : (suggestGroups s limit).Pairwise (fun a b => a.2 ≤ b.2) :=
      sortBy_pairwise _ _
    have hp3 : (suggestGroups s limit).Pairwise
        (fun a b => unknownCount s a.1 ≤ unknownCount s b.1) := by
      refine hp2.imp_of_mem ?_
      intro a b ha hb hab
      rw [← (mem_suggestGroups s limit a ha).1, ← (mem_suggestGroups s limit b hb).1]
      exact hab
    exact hp3.map _ (fun a b hab => hab)

/-- A state whose single sentence has zero unknown words (its word's card
has a due date). -/
def cexSuggest : WordieSrsAlgorithm :=
  { sentences := [(1, "s1")], words := [(1, "a")],
    sentence_words := [(1, 1)],
    cards := [{ word_id := 1, due := some 0, interval := some 60,
                review_count := 1, ease := DEFAULT_EASE, added_order := 0 }],
    new_card_limit := 2, cards_learned_today := 0, cards_reviewed_today := 0,
    local_time := 0 }

theorem c7_counterexample :
    WordieSrsAlgorithm.get_suggested_sentences cexSuggest 0 = [] ∧
    unknownCount cexSuggest 1 = 0 ∧
    cexSuggest.sentences = [(1, "s1")] := by
  refine ⟨by decide, by decide, rfl⟩

theorem c7_witness :
    ((WordieSrsAlgorithm.get_suggested_sentences cexLimit 2).map
      (fun e => e.1.1)).count 1 = 1 :=
  (c7_suggest_amended cexLimit 2).2.1 1 (by decide) (by decide)
